import Mathlib

/-!
Verification of the advent-of-code-2025 safe-dial programs
(src/day_1_safe_puzzle/src/main.rs and src/task_1_safe_puzzle/src/main.rs).

The Rust sources are shallowly embedded here:
* strings are lists of characters,
* Rust i32 values are Lean integers (the i32 range is enforced explicitly
  where the Rust code enforces it, namely in integer parsing),
* the Rust remainder operator on i32 is the truncating remainder Int.tmod,
* fallible operations return Except.
-/

namespace AoC2025

set_option maxRecDepth 4000

deriving instance DecidableEq for Except

/-- The two dial directions, from enum Direction in both main.rs files. -/
inductive Direction where
  | Left : Direction
  | Right : Direction
deriving DecidableEq

/-- Error for an unsupported direction character, from enum DirectionParseError. -/
inductive DirectionParseError where
  | Unsupported : Char → DirectionParseError
deriving DecidableEq

/-- The error kinds of Rust integer parsing (std num ParseIntError) that
the distance parse can produce. -/
inductive IntParseError where
  | Empty : IntParseError
  | InvalidDigit : IntParseError
  | PosOverflow : IntParseError
  | NegOverflow : IntParseError
deriving DecidableEq

/-- The parse errors of RotationCommand, from enum RotationCommandParseError. -/
inductive RotationCommandParseError where
  | EmptyInput : RotationCommandParseError
  | InvalidDirection : List Char → Char → DirectionParseError → RotationCommandParseError
  | MissingDistance : List Char → RotationCommandParseError
  | InvalidDistance : List Char → List Char → IntParseError → RotationCommandParseError
deriving DecidableEq

/-- Direction::get_direction_literal, as a character list. -/
def Direction.get_direction_literal : Direction → List Char
  | Direction.Left => ['L']
  | Direction.Right => ['R']

/-- TryFrom char for Direction from the source: R maps to Right, L to Left,
anything else is an Unsupported error. -/
def Direction.tryFromChar (c : Char) : Except DirectionParseError Direction :=
  if c = 'R' then Except.ok Direction.Right
  else if c = 'L' then Except.ok Direction.Left
  else Except.error (DirectionParseError.Unsupported c)

/-- The i32 maximum, 2^31 - 1. -/
def i32Max : Int := 2147483647

/-- The i32 minimum, -2^31. -/
def i32Min : Int := -2147483648

/-- The digit-consuming loop of Rust i32 from_str (core::num::from_str_radix with
radix 10): consume decimal digits left to right, accumulating positively or
negatively according to the sign, failing on a non-digit character and on
leaving the i32 range. -/
def parseI32Digits (positive : Bool) : List Char → Int → Except IntParseError Int
  | [], acc => Except.ok acc
  | c :: cs, acc =>
    if c.isDigit then
      let d : Int := ((c.toNat - 48 : Nat) : Int)
      if positive then
        let acc2 := acc * 10 + d
        if i32Max < acc2 then Except.error IntParseError.PosOverflow
        else parseI32Digits positive cs acc2
      else
        let acc2 := acc * 10 - d
        if acc2 < i32Min then Except.error IntParseError.NegOverflow
        else parseI32Digits positive cs acc2
    else Except.error IntParseError.InvalidDigit

/-- Rust str::parse::<i32>: an optional leading + or - sign followed by at
least one decimal digit, with the result in the i32 range. -/
def parseI32 (s : List Char) : Except IntParseError Int :=
  match s with
  | [] => Except.error IntParseError.Empty
  | c :: cs =>
    if c = '+' then
      if cs = [] then Except.error IntParseError.InvalidDigit
      else parseI32Digits true cs 0
    else if c = '-' then
      if cs = [] then Except.error IntParseError.InvalidDigit
      else parseI32Digits false cs 0
    else parseI32Digits true (c :: cs) 0

/-- struct RotationCommand: a direction plus an i32 distance. -/
structure RotationCommand where
  direction : Direction
  distance : Int
deriving DecidableEq

/-- Rust str::trim on a character list: remove leading and trailing
whitespace characters. -/
def trimChars (s : List Char) : List Char :=
  ((s.dropWhile Char.isWhitespace).reverse.dropWhile Char.isWhitespace).reverse

/-- RotationCommand::parse from the source: trim, fail EmptyInput on an empty
trimmed line, parse the first character as the direction (failing
InvalidDirection with the Unsupported cause), fail MissingDistance when
nothing follows, and parse the remainder as an i32 distance (failing
InvalidDistance with the integer-parse cause). -/
def RotationCommand.parse (raw : List Char) : Except RotationCommandParseError RotationCommand :=
  match trimChars raw with
  | [] => Except.error RotationCommandParseError.EmptyInput
  | dirCh :: rest =>
    match Direction.tryFromChar dirCh with
    | Except.error e =>
        Except.error (RotationCommandParseError.InvalidDirection (dirCh :: rest) dirCh e)
    | Except.ok direction =>
        if rest = [] then
          Except.error (RotationCommandParseError.MissingDistance (dirCh :: rest))
        else
          match parseI32 rest with
          | Except.error e =>
              Except.error (RotationCommandParseError.InvalidDistance (dirCh :: rest) rest e)
          | Except.ok distance => Except.ok ⟨direction, distance⟩

/-- The character for a decimal digit value. -/
def digitChar (d : Nat) : Char := Char.ofNat (48 + d)

/-- Decimal digit expansion of a natural number, most significant digit
first, with an explicit fuel argument (the fuel is always sufficient when
the initial call uses n + 1, because n / 10 < n for n at least 10). -/
def natReprGo : Nat → Nat → List Char → List Char
  | 0, _, acc => acc
  | f + 1, n, acc =>
    if n < 10 then digitChar n :: acc
    else natReprGo f (n / 10) (digitChar (n % 10) :: acc)

/-- Canonical decimal rendering of a natural number (no sign, no leading
zeros), as produced by the Rust Display implementation for non-negative i32. -/
def natRepr (n : Nat) : List Char := natReprGo (n + 1) n []

/-- Rust Display for i32: a minus sign followed by the magnitude for
negative values, the plain decimal expansion otherwise. -/
def intRepr (x : Int) : List Char :=
  if x < 0 then '-' :: natRepr (-x).toNat else natRepr x.toNat

/-- Display for RotationCommand: direction literal followed by the distance. -/
def RotationCommand.render (c : RotationCommand) : List Char :=
  c.direction.get_direction_literal ++ intRepr c.distance

/-- struct SafeDialKnob: the current dial position (i32 in the source) and
the zero-occurrence counter (u32 in the source, embedded as Nat). -/
structure SafeDialKnob where
  current_position : Int
  zero_position_occurrence : Nat
deriving DecidableEq

/-- SafeDialKnob::init (Default): position 50, counter 0. -/
def SafeDialKnob.init : SafeDialKnob := ⟨50, 0⟩

/-- The position-update (normalization) step both policies apply: the Rust
expression e % 100 on i32, which is the truncating remainder Int.tmod. -/
def normalize (x : Int) : Int := x.tmod 100

/-- One unit click of the dial in the given direction, as computed inside
the while loop of rotate_knob_solution_two. -/
def clickPosition (dir : Direction) (p : Int) : Int :=
  match dir with
  | Direction.Right => normalize (p + 1)
  | Direction.Left => normalize (p - 1)

/-- The while loop of rotate_knob_solution_two, indexed by the number of
remaining iterations: click once, count a zero when the new position is
zero, and continue. -/
def clicksLoop (dir : Direction) : Nat → Int → Nat → Int × Nat
  | 0, current, zeros => (current, zeros)
  | k + 1, current, zeros =>
    let c := clickPosition dir current
    clicksLoop dir k c (if c = 0 then zeros + 1 else zeros)

/-- SafeDialKnob::rotate_knob_solution_two (Policy B, every-click counting):
perform distance unit clicks, counting each click that lands on zero.
The source loop runs while steps != 0 decrementing steps, hence performs
exactly distance iterations when distance is non-negative (see the loop
model loopBody and loopIter below, and the termination theorem). -/
def SafeDialKnob.rotate_knob_solution_two (knob : SafeDialKnob) (command : RotationCommand) :
    SafeDialKnob :=
  let r := clicksLoop command.direction command.distance.toNat
    knob.current_position knob.zero_position_occurrence
  ⟨r.1, r.2⟩

/-- SafeDialKnob::rotate_knob_solution_one (Policy A, end-of-rotation
counting): move by the whole signed delta, reduce with the Rust remainder,
and count one zero when the resulting position is zero. -/
def SafeDialKnob.rotate_knob_solution_one (knob : SafeDialKnob) (command : RotationCommand) :
    SafeDialKnob :=
  let current :=
    match command.direction with
    | Direction.Right => normalize (knob.current_position + command.distance)
    | Direction.Left => normalize (knob.current_position - command.distance)
  ⟨current,
    if current = 0 then knob.zero_position_occurrence + 1 else knob.zero_position_occurrence⟩

/-- SafeDialKnob::apply_rotation_commands_solution_two: fold Policy B over
the command list in order. -/
def SafeDialKnob.apply_rotation_commands_solution_two (knob : SafeDialKnob)
    (commands : List RotationCommand) : SafeDialKnob :=
  commands.foldl SafeDialKnob.rotate_knob_solution_two knob

/-- SafeDialKnob::apply_rotation_commands_solution_one: fold Policy A over
the command list in order. -/
def SafeDialKnob.apply_rotation_commands_solution_one (knob : SafeDialKnob)
    (commands : List RotationCommand) : SafeDialKnob :=
  commands.foldl SafeDialKnob.rotate_knob_solution_one knob

/-- SafeDialKnob::get_code_sequence: read the zero counter. -/
def SafeDialKnob.get_code_sequence (knob : SafeDialKnob) : Nat :=
  knob.zero_position_occurrence

/-- The state of the while loop in rotate_knob_solution_two: the local
variables current and steps, plus the zero counter field it mutates. -/
structure LoopState where
  current : Int
  steps : Int
  zeros : Nat
deriving DecidableEq

/-- One iteration of the loop body of rotate_knob_solution_two: click,
count a zero, decrement steps. -/
def loopBody (dir : Direction) (st : LoopState) : LoopState :=
  let c := clickPosition dir st.current
  ⟨c, st.steps - 1, if c = 0 then st.zeros + 1 else st.zeros⟩

/-- Iterating the loop body a given number of times. -/
def loopIter (dir : Direction) : Nat → LoopState → LoopState
  | 0, st => st
  | k + 1, st => loopIter dir k (loopBody dir st)

namespace Task1

/-- SafeDialKnob::rotate_knob from src/task_1_safe_puzzle/src/main.rs,
textually the same algorithm as rotate_knob_solution_one. -/
def rotate_knob (knob : SafeDialKnob) (command : RotationCommand) : SafeDialKnob :=
  let current :=
    match command.direction with
    | Direction.Right => normalize (knob.current_position + command.distance)
    | Direction.Left => normalize (knob.current_position - command.distance)
  ⟨current,
    if current = 0 then knob.zero_position_occurrence + 1 else knob.zero_position_occurrence⟩

/-- SafeDialKnob::execute_rotation_commands from src/task_1_safe_puzzle:
a for loop applying rotate_knob to each command in order. -/
def execute_rotation_commands (knob : SafeDialKnob) (commands : List RotationCommand) :
    SafeDialKnob :=
  commands.foldl rotate_knob knob

end Task1

/-- The worked example command sequence from the puzzle narrative and the
test_input asset: L68 L30 R48 L5 R60 L55 L1 L99 R14 L82. -/
def exampleCommands : List RotationCommand :=
  [⟨Direction.Left, 68⟩, ⟨Direction.Left, 30⟩, ⟨Direction.Right, 48⟩,
   ⟨Direction.Left, 5⟩, ⟨Direction.Right, 60⟩, ⟨Direction.Left, 55⟩,
   ⟨Direction.Left, 1⟩, ⟨Direction.Left, 99⟩, ⟨Direction.Right, 14⟩,
   ⟨Direction.Left, 82⟩]

/-! ### Arithmetic facts about the truncating remainder -/

/-- Characterization of the Rust i32 remainder by 100: truncation toward
zero, so the result keeps the sign of the dividend. -/
theorem tmod100_def (x : Int) : x.tmod 100 = if 0 ≤ x then x % 100 else -((-x) % 100) := by
  cases x with
  | ofNat m =>
    show Int.ofNat (m % 100) = _
    rw [if_pos (by exact Int.ofNat_nonneg m)]
    simp only [Int.ofNat_eq_natCast]
    omega
  | negSucc m =>
    show -Int.ofNat ((m + 1) % 100) = _
    rw [if_neg (by simp only [Int.negSucc_eq]; omega)]
    simp only [Int.ofNat_eq_natCast, Int.negSucc_eq]
    omega

theorem normalize_def (x : Int) : normalize x = if 0 ≤ x then x % 100 else -((-x) % 100) :=
  tmod100_def x

theorem normalize_bounds (x : Int) : -100 < normalize x ∧ normalize x < 100 := by
  rw [normalize_def]; split <;> omega

theorem normalize_small {x : Int} (h1 : -100 < x) (h2 : x < 100) : normalize x = x := by
  rw [normalize_def]; split <;> omega

theorem clickPosition_bounds (dir : Direction) (p : Int) :
    -100 < clickPosition dir p ∧ clickPosition dir p < 100 := by
  cases dir <;> exact normalize_bounds _

/-! ### Structure of the click loop -/

/-- The zero counter is a pure accumulator: running the click loop with an
arbitrary initial counter just shifts the counter obtained from zero. -/
theorem clicksLoop_zshift (dir : Direction) :
    ∀ (k : Nat) (p : Int) (z : Nat),
      clicksLoop dir k p z = ((clicksLoop dir k p 0).1, z + (clicksLoop dir k p 0).2) := by
  intro k
  induction k with
  | zero => intro p z; rfl
  | succ k ih =>
    intro p z
    have hstep : ∀ (z0 : Nat), clicksLoop dir (k + 1) p z0 =
        clicksLoop dir k (clickPosition dir p)
          (if clickPosition dir p = 0 then z0 + 1 else z0) := fun _ => rfl
    rw [hstep z, hstep 0, ih (clickPosition dir p), ih (clickPosition dir p) 0]
    rw [ih (clickPosition dir p) (if clickPosition dir p = 0 then 0 + 1 else 0)]
    simp only [Prod.mk.injEq, true_and]
    split <;> omega

/-- Splitting the click loop into two runs. -/
theorem clicksLoop_append (dir : Direction) :
    ∀ (a b : Nat) (p : Int) (z : Nat),
      clicksLoop dir (a + b) p z =
        clicksLoop dir b (clicksLoop dir a p z).1 (clicksLoop dir a p z).2 := by
  intro a
  induction a with
  | zero => intro b p z; simp only [Nat.zero_add]; rfl
  | succ a ih =>
    intro b p z
    have h1 : a + 1 + b = (a + b) + 1 := by omega
    rw [h1]
    have hstep : ∀ (m : Nat) (z0 : Nat), clicksLoop dir (m + 1) p z0 =
        clicksLoop dir m (clickPosition dir p)
          (if clickPosition dir p = 0 then z0 + 1 else z0) := fun _ _ => rfl
    rw [hstep (a + b) z, hstep a z, ih]

/-- A run of k clicks that returns to its starting position with c zero
hits repeats: m rounds of k clicks hit m * c zeros. -/
theorem clicksLoop_cycle (dir : Direction) (k : Nat) (p : Int) (c : Nat)
    (h : clicksLoop dir k p 0 = (p, c)) :
    ∀ (m : Nat), clicksLoop dir (m * k) p 0 = (p, m * c) := by
  intro m
  induction m with
  | zero => simp only [Nat.zero_mul]; rfl
  | succ m ih =>
    have h1 : (m + 1) * k = m * k + k := by ring
    rw [h1, clicksLoop_append, ih, clicksLoop_zshift dir k p (m * c), h]
    simp only [Prod.mk.injEq, true_and]
    ring

/-- The final position of the click loop going right equals the monolithic
Policy A update, provided the starting position is already reduced. -/
theorem clicksLoop_right_fst (d : Nat) :
    ∀ (p : Int) (z : Nat), -100 < p → p < 100 →
      (clicksLoop Direction.Right d p z).1 = normalize (p + d) := by
  induction d with
  | zero =>
    intro p z h1 h2
    simp only [Nat.cast_zero, Int.add_zero]
    exact (normalize_small h1 h2).symm
  | succ d ih =>
    intro p z h1 h2
    have hc := clickPosition_bounds Direction.Right p
    have hmain : (clicksLoop Direction.Right d (clickPosition Direction.Right p)
        (if clickPosition Direction.Right p = 0 then z + 1 else z)).1 =
        normalize (clickPosition Direction.Right p + d) := ih _ _ hc.1 hc.2
    show (clicksLoop Direction.Right d (clickPosition Direction.Right p)
        (if clickPosition Direction.Right p = 0 then z + 1 else z)).1 = _
    rw [hmain]
    show normalize (normalize (p + 1) + d) = normalize (p + (d + 1 : Nat))
    rw [normalize_def (p + 1), normalize_def, normalize_def]
    push_cast
    split_ifs <;> omega

/-- The final position of the click loop going left equals the monolithic
Policy A update, provided the starting position is already reduced. -/
theorem clicksLoop_left_fst (d : Nat) :
    ∀ (p : Int) (z : Nat), -100 < p → p < 100 →
      (clicksLoop Direction.Left d p z).1 = normalize (p - d) := by
  induction d with
  | zero =>
    intro p z h1 h2
    simp only [Nat.cast_zero, Int.sub_zero]
    exact (normalize_small h1 h2).symm
  | succ d ih =>
    intro p z h1 h2
    have hc := clickPosition_bounds Direction.Left p
    have hmain : (clicksLoop Direction.Left d (clickPosition Direction.Left p)
        (if clickPosition Direction.Left p = 0 then z + 1 else z)).1 =
        normalize (clickPosition Direction.Left p - d) := ih _ _ hc.1 hc.2
    show (clicksLoop Direction.Left d (clickPosition Direction.Left p)
        (if clickPosition Direction.Left p = 0 then z + 1 else z)).1 = _
    rw [hmain]
    show normalize (normalize (p - 1) - d) = normalize (p - (d + 1 : Nat))
    rw [normalize_def (p - 1), normalize_def, normalize_def]
    push_cast
    split_ifs <;> omega

/-- The zero counter never decreases along the click loop. -/
theorem clicksLoop_zeros_le (dir : Direction) :
    ∀ (k : Nat) (p : Int) (z : Nat), z ≤ (clicksLoop dir k p z).2 := by
  intro k
  induction k with
  | zero => intro p z; exact Nat.le_refl z
  | succ k ih =>
    intro p z
    have h := ih (clickPosition dir p) (if clickPosition dir p = 0 then z + 1 else z)
    refine Nat.le_trans ?_ h
    split <;> omega

/-- When at least one click happens and the loop ends on zero, the last
click itself was counted: the final counter strictly exceeds the start. -/
theorem clicksLoop_zero_hit (dir : Direction) :
    ∀ (k : Nat) (p : Int) (z : Nat),
      (clicksLoop dir (k + 1) p z).1 = 0 → z + 1 ≤ (clicksLoop dir (k + 1) p z).2 := by
  intro k
  induction k with
  | zero =>
    intro p z h0
    have hstep : clicksLoop dir 1 p z = (clickPosition dir p,
        if clickPosition dir p = 0 then z + 1 else z) := rfl
    rw [hstep] at h0 ⊢
    simp only at h0 ⊢
    rw [if_pos h0]
  | succ k ih =>
    intro p z h0
    have hstep : ∀ (z0 : Nat), clicksLoop dir (k + 1 + 1) p z0 =
        clicksLoop dir (k + 1) (clickPosition dir p)
          (if clickPosition dir p = 0 then z0 + 1 else z0) := fun _ => rfl
    rw [hstep] at h0 ⊢
    have h := ih (clickPosition dir p) (if clickPosition dir p = 0 then z + 1 else z) h0
    refine Nat.le_trans ?_ h
    split <;> omega

/-- Relating the two policies along a whole command sequence with strictly
positive distances: they track the same positions, the position stays
reduced, and Policy A counts at most as many zeros as Policy B. -/
theorem policies_rel :
    ∀ (cmds : List RotationCommand) (p : Int) (zA zB : Nat),
      (∀ c ∈ cmds, 1 ≤ c.distance) → -100 < p → p < 100 → zA ≤ zB →
      (SafeDialKnob.apply_rotation_commands_solution_one ⟨p, zA⟩ cmds).current_position =
        (SafeDialKnob.apply_rotation_commands_solution_two ⟨p, zB⟩ cmds).current_position
      ∧ -100 < (SafeDialKnob.apply_rotation_commands_solution_one ⟨p, zA⟩ cmds).current_position
      ∧ (SafeDialKnob.apply_rotation_commands_solution_one ⟨p, zA⟩ cmds).current_position < 100
      ∧ (SafeDialKnob.apply_rotation_commands_solution_one ⟨p, zA⟩ cmds).zero_position_occurrence
        ≤ (SafeDialKnob.apply_rotation_commands_solution_two ⟨p, zB⟩ cmds).zero_position_occurrence := by
  intro cmds
  induction cmds with
  | nil => intro p zA zB hall h1 h2 hz; exact ⟨rfl, h1, h2, hz⟩
  | cons c cs ih =>
    intro p zA zB hall h1 h2 hz
    obtain ⟨dir, dist⟩ := c
    have hd : 1 ≤ dist := hall _ (List.mem_cons_self _ _)
    have hcast : ((dist.toNat : Nat) : Int) = dist := Int.toNat_of_nonneg (by omega)
    have hall' : ∀ c ∈ cs, 1 ≤ c.distance := fun c hc => hall c (List.mem_cons_of_mem _ hc)
    cases dir with
    | Right =>
      have hA : SafeDialKnob.apply_rotation_commands_solution_one ⟨p, zA⟩
            (⟨Direction.Right, dist⟩ :: cs)
          = SafeDialKnob.apply_rotation_commands_solution_one
              ⟨normalize (p + dist), if normalize (p + dist) = 0 then zA + 1 else zA⟩ cs := rfl
      have hB : SafeDialKnob.apply_rotation_commands_solution_two ⟨p, zB⟩
            (⟨Direction.Right, dist⟩ :: cs)
          = SafeDialKnob.apply_rotation_commands_solution_two
              ⟨(clicksLoop Direction.Right dist.toNat p zB).1,
               (clicksLoop Direction.Right dist.toNat p zB).2⟩ cs := rfl
      rw [hA, hB]
      have hfst : (clicksLoop Direction.Right dist.toNat p zB).1 = normalize (p + dist) := by
        rw [clicksLoop_right_fst dist.toNat p zB h1 h2, hcast]
      have hbounds := normalize_bounds (p + dist)
      have hzz : (if normalize (p + dist) = 0 then zA + 1 else zA)
          ≤ (clicksLoop Direction.Right dist.toNat p zB).2 := by
        by_cases h0 : normalize (p + dist) = 0
        · rw [if_pos h0]
          obtain ⟨k, hk⟩ : ∃ k, dist.toNat = k + 1 := ⟨dist.toNat - 1, by omega⟩
          rw [hk]
          have hlast : (clicksLoop Direction.Right (k + 1) p zB).1 = 0 := by
            rw [← hk, hfst]; exact h0
          have := clicksLoop_zero_hit Direction.Right k p zB hlast
          omega
        · rw [if_neg h0]
          exact Nat.le_trans hz (clicksLoop_zeros_le _ _ _ _)
      rw [hfst]
      exact ih (normalize (p + dist)) _ _ hall' hbounds.1 hbounds.2 hzz
    | Left =>
      have hA : SafeDialKnob.apply_rotation_commands_solution_one ⟨p, zA⟩
            (⟨Direction.Left, dist⟩ :: cs)
          = SafeDialKnob.apply_rotation_commands_solution_one
              ⟨normalize (p - dist), if normalize (p - dist) = 0 then zA + 1 else zA⟩ cs := rfl
      have hB : SafeDialKnob.apply_rotation_commands_solution_two ⟨p, zB⟩
            (⟨Direction.Left, dist⟩ :: cs)
          = SafeDialKnob.apply_rotation_commands_solution_two
              ⟨(clicksLoop Direction.Left dist.toNat p zB).1,
               (clicksLoop Direction.Left dist.toNat p zB).2⟩ cs := rfl
      rw [hA, hB]
      have hfst : (clicksLoop Direction.Left dist.toNat p zB).1 = normalize (p - dist) := by
        rw [clicksLoop_left_fst dist.toNat p zB h1 h2, hcast]
      have hbounds := normalize_bounds (p - dist)
      have hzz : (if normalize (p - dist) = 0 then zA + 1 else zA)
          ≤ (clicksLoop Direction.Left dist.toNat p zB).2 := by
        by_cases h0 : normalize (p - dist) = 0
        · rw [if_pos h0]
          obtain ⟨k, hk⟩ : ∃ k, dist.toNat = k + 1 := ⟨dist.toNat - 1, by omega⟩
          rw [hk]
          have hlast : (clicksLoop Direction.Left (k + 1) p zB).1 = 0 := by
            rw [← hk, hfst]; exact h0
          have := clicksLoop_zero_hit Direction.Left k p zB hlast
          omega
        · rw [if_neg h0]
          exact Nat.le_trans hz (clicksLoop_zeros_le _ _ _ _)
      rw [hfst]
      exact ih (normalize (p - dist)) _ _ hall' hbounds.1 hbounds.2 hzz

/-! ### Decimal parsing and printing -/

/-- Left-to-right decimal valuation of a character list, the pure value
computed by the digit loop of parseI32Digits. -/
def digitsVal (cs : List Char) (acc : Int) : Int :=
  cs.foldl (fun a c => a * 10 + ((c.toNat - 48 : Nat) : Int)) acc

theorem digitsVal_ge : ∀ (cs : List Char) (a : Int), 0 ≤ a → a ≤ digitsVal cs a := by
  intro cs
  induction cs with
  | nil => intro a _; exact Int.le_refl a
  | cons c cs ih =>
    intro a ha
    have h1 : a ≤ a * 10 + ((c.toNat - 48 : Nat) : Int) := by
      have : (0 : Int) ≤ ((c.toNat - 48 : Nat) : Int) := Int.natCast_nonneg _
      omega
    exact Int.le_trans h1 (ih _ (by omega))

theorem parseI32Digits_true_bounds :
    ∀ (cs : List Char) (acc v : Int), 0 ≤ acc → acc ≤ i32Max →
      parseI32Digits true cs acc = Except.ok v → 0 ≤ v ∧ v ≤ i32Max := by
  intro cs
  induction cs with
  | nil =>
    intro acc v h0 h1 h
    simp only [parseI32Digits, Except.ok.injEq] at h
    omega
  | cons c cs ih =>
    intro acc v h0 h1 h
    simp only [parseI32Digits] at h
    by_cases hc : c.isDigit
    · rw [if_pos hc] at h
      simp only [if_true] at h
      by_cases hover : i32Max < acc * 10 + ((c.toNat - 48 : Nat) : Int)
      · rw [if_pos hover] at h; exact absurd h (by simp)
      · rw [if_neg hover] at h
        have hd : (0 : Int) ≤ ((c.toNat - 48 : Nat) : Int) := Int.natCast_nonneg _
        exact ih _ _ (by omega) (by omega) h
    · rw [if_neg hc] at h; exact absurd h (by simp)

theorem parseI32Digits_false_bounds :
    ∀ (cs : List Char) (acc v : Int), i32Min ≤ acc → acc ≤ 0 →
      parseI32Digits false cs acc = Except.ok v → i32Min ≤ v ∧ v ≤ 0 := by
  intro cs
  induction cs with
  | nil =>
    intro acc v h0 h1 h
    simp only [parseI32Digits, Except.ok.injEq] at h
    omega
  | cons c cs ih =>
    intro acc v h0 h1 h
    simp only [parseI32Digits] at h
    by_cases hc : c.isDigit
    · rw [if_pos hc] at h
      simp only [Bool.false_eq_true, if_false] at h
      by_cases hover : acc * 10 - ((c.toNat - 48 : Nat) : Int) < i32Min
      · rw [if_pos hover] at h; exact absurd h (by simp)
      · rw [if_neg hover] at h
        have hd : (0 : Int) ≤ ((c.toNat - 48 : Nat) : Int) := Int.natCast_nonneg _
        exact ih _ _ (by omega) (by omega) h
    · rw [if_neg hc] at h; exact absurd h (by simp)

theorem parseI32_ok_bounds (s : List Char) (v : Int) (h : parseI32 s = Except.ok v) :
    i32Min ≤ v ∧ v ≤ i32Max := by
  match s with
  | [] => exact absurd h (by simp [parseI32])
  | c :: cs =>
    simp only [parseI32] at h
    by_cases hp : c = '+'
    · rw [if_pos hp] at h
      by_cases he : cs = []
      · rw [if_pos he] at h; exact absurd h (by simp)
      · rw [if_neg he] at h
        have := parseI32Digits_true_bounds cs 0 v (by omega) (by unfold i32Max; omega) h
        unfold i32Min i32Max at *
        omega
    · rw [if_neg hp] at h
      by_cases hm : c = '-'
      · rw [if_pos hm] at h
        by_cases he : cs = []
        · rw [if_pos he] at h; exact absurd h (by simp)
        · rw [if_neg he] at h
          have := parseI32Digits_false_bounds cs 0 v (by unfold i32Min; omega) (by omega) h
          unfold i32Min i32Max at *
          omega
      · rw [if_neg hm] at h
        have := parseI32Digits_true_bounds (c :: cs) 0 v (by omega) (by unfold i32Max; omega) h
        unfold i32Min i32Max at *
        omega

theorem parseI32Digits_eq_digitsVal :
    ∀ (cs : List Char) (acc : Int), (∀ c ∈ cs, c.isDigit = true) → 0 ≤ acc →
      digitsVal cs acc ≤ i32Max →
      parseI32Digits true cs acc = Except.ok (digitsVal cs acc) := by
  intro cs
  induction cs with
  | nil => intro acc _ _ _; rfl
  | cons c cs ih =>
    intro acc hall h0 hmax
    have hc : c.isDigit = true := hall c (List.mem_cons_self c cs)
    have hval : digitsVal (c :: cs) acc = digitsVal cs (acc * 10 + ((c.toNat - 48 : Nat) : Int)) :=
      rfl
    have hd : (0 : Int) ≤ ((c.toNat - 48 : Nat) : Int) := Int.natCast_nonneg _
    have hge : acc * 10 + ((c.toNat - 48 : Nat) : Int) ≤ digitsVal (c :: cs) acc := by
      rw [hval]; exact digitsVal_ge cs _ (by omega)
    simp only [parseI32Digits, hc, if_true]
    rw [if_neg (by omega)]
    rw [hval]
    exact ih _ (fun x hx => hall x (List.mem_cons_of_mem c hx)) (by omega) (by rw [hval] at hmax; exact hmax)

theorem digitChar_isDigit {d : Nat} (h : d < 10) : (digitChar d).isDigit = true := by
  interval_cases d <;> decide

theorem digitChar_val {d : Nat} (h : d < 10) : (digitChar d).toNat - 48 = d := by
  interval_cases d <;> decide

theorem natReprGo_digits :
    ∀ (f n : Nat) (acc : List Char), n < f → (∀ c ∈ acc, c.isDigit = true) →
      ∀ c ∈ natReprGo f n acc, c.isDigit = true := by
  intro f
  induction f with
  | zero => intro n acc hn; omega
  | succ f ih =>
    intro n acc hn hacc c hc
    by_cases h10 : n < 10
    · simp only [natReprGo, if_pos h10] at hc
      rcases List.mem_cons.mp hc with h | h
      · rw [h]; exact digitChar_isDigit h10
      · exact hacc c h
    · simp only [natReprGo, if_neg h10] at hc
      refine ih (n / 10) _ (by omega) ?_ c hc
      intro x hx
      rcases List.mem_cons.mp hx with h | h
      · rw [h]; exact digitChar_isDigit (Nat.mod_lt n (by omega))
      · exact hacc x h

theorem natReprGo_ne_nil :
    ∀ (f n : Nat) (acc : List Char), n < f → natReprGo f n acc ≠ [] := by
  intro f
  induction f with
  | zero => intro n acc hn; omega
  | succ f ih =>
    intro n acc hn
    by_cases h10 : n < 10
    · simp only [natReprGo, if_pos h10]
      exact List.cons_ne_nil _ _
    · simp only [natReprGo, if_neg h10]
      exact ih (n / 10) _ (by omega)

theorem natReprGo_val :
    ∀ (f n : Nat) (acc : List Char), n < f →
      ∃ E : Int, 0 < E ∧ ∀ a : Int, digitsVal (natReprGo f n acc) a = digitsVal acc (a * E + n) := by
  intro f
  induction f with
  | zero => intro n acc hn; omega
  | succ f ih =>
    intro n acc hn
    by_cases h10 : n < 10
    · refine ⟨10, by omega, ?_⟩
      intro a
      simp only [natReprGo, if_pos h10]
      have hstep : digitsVal (digitChar n :: acc) a =
          digitsVal acc (a * 10 + (((digitChar n).toNat - 48 : Nat) : Int)) := rfl
      rw [hstep, digitChar_val h10]
    · obtain ⟨E, hE, hval⟩ := ih (n / 10) (digitChar (n % 10) :: acc) (by omega)
      refine ⟨E * 10, by positivity, ?_⟩
      intro a
      simp only [natReprGo, if_neg h10]
      rw [hval a]
      have hstep : digitsVal (digitChar (n % 10) :: acc) (a * E + (n / 10 : Nat)) =
          digitsVal acc ((a * E + ((n / 10 : Nat) : Int)) * 10 +
            (((digitChar (n % 10)).toNat - 48 : Nat) : Int)) := rfl
      rw [hstep, digitChar_val (Nat.mod_lt n (by omega))]
      have hdm : ((n / 10 : Nat) : Int) * 10 + ((n % 10 : Nat) : Int) = (n : Int) := by
        push_cast
        omega
      have hcalc : (a * E + ((n / 10 : Nat) : Int)) * 10 + ((n % 10 : Nat) : Int) =
          a * (E * 10) + (n : Int) := by
        calc (a * E + ((n / 10 : Nat) : Int)) * 10 + ((n % 10 : Nat) : Int)
            = a * (E * 10) + (((n / 10 : Nat) : Int) * 10 + ((n % 10 : Nat) : Int)) := by ring
          _ = a * (E * 10) + (n : Int) := by rw [hdm]
      rw [hcalc]

theorem digitsVal_natRepr (n : Nat) : digitsVal (natRepr n) 0 = (n : Int) := by
  obtain ⟨E, hE, hval⟩ := natReprGo_val (n + 1) n [] (by omega)
  have h := hval 0
  have hnil : digitsVal [] (0 * E + (n : Int)) = 0 * E + (n : Int) := rfl
  rw [natRepr, h, hnil]
  ring

theorem natRepr_digits (n : Nat) : ∀ c ∈ natRepr n, c.isDigit = true :=
  natReprGo_digits (n + 1) n [] (by omega) (by intro c hc; exact absurd hc (List.not_mem_nil c))

theorem natRepr_ne_nil (n : Nat) : natRepr n ≠ [] :=
  natReprGo_ne_nil (n + 1) n [] (by omega)

theorem isDigit_ne_plus {c : Char} (h : c.isDigit = true) : c ≠ '+' := by
  intro he; rw [he] at h; exact absurd h (by decide)

theorem isDigit_ne_minus {c : Char} (h : c.isDigit = true) : c ≠ '-' := by
  intro he; rw [he] at h; exact absurd h (by decide)

theorem parseI32_natRepr (n : Nat) (h : (n : Int) ≤ i32Max) :
    parseI32 (natRepr n) = Except.ok (n : Int) := by
  obtain ⟨c, cs, hcons⟩ := List.exists_cons_of_ne_nil (natRepr_ne_nil n)
  have hc : c.isDigit = true := natRepr_digits n c (by rw [hcons]; exact List.mem_cons_self c cs)
  have hmain : parseI32Digits true (natRepr n) 0 = Except.ok (digitsVal (natRepr n) 0) :=
    parseI32Digits_eq_digitsVal (natRepr n) 0 (natRepr_digits n) (by omega)
      (by rw [digitsVal_natRepr]; exact h)
  rw [hcons]
  simp only [parseI32, if_neg (isDigit_ne_plus hc), if_neg (isDigit_ne_minus hc)]
  rw [← hcons, hmain, digitsVal_natRepr]

/-! ### Trimming -/

theorem dropWhile_eq_self_of_none {p : Char → Bool} :
    ∀ {l : List Char}, (∀ c ∈ l, p c = false) → l.dropWhile p = l := by
  intro l h
  cases l with
  | nil => rfl
  | cons a l =>
    rw [List.dropWhile_cons_of_neg]
    rw [h a (List.mem_cons_self a l)]
    exact Bool.false_ne_true

theorem trimChars_eq_self {l : List Char} (h : ∀ c ∈ l, c.isWhitespace = false) :
    trimChars l = l := by
  unfold trimChars
  rw [dropWhile_eq_self_of_none h,
    dropWhile_eq_self_of_none (fun c hc => h c (List.mem_reverse.mp hc))]
  exact List.reverse_reverse l

theorem isDigit_not_ws {c : Char} (h : c.isDigit = true) : c.isWhitespace = false := by
  cases hw : c.isWhitespace with
  | false => rfl
  | true =>
    exfalso
    have hcases : ((c = ' ' ∨ c = '\t') ∨ c = '\r') ∨ c = '\n' := by
      simpa [Char.isWhitespace] using hw
    rcases hcases with ((h1 | h1) | h1) | h1 <;> (rw [h1] at h; exact absurd h (by decide))

/-! ### Position-range invariants and loop correspondence -/

theorem clicksLoop_fst_bounds (dir : Direction) :
    ∀ (k : Nat) (p : Int) (z : Nat), -100 < p → p < 100 →
      -100 < (clicksLoop dir k p z).1 ∧ (clicksLoop dir k p z).1 < 100 := by
  intro k
  induction k with
  | zero => intro p z h1 h2; exact ⟨h1, h2⟩
  | succ k ih =>
    intro p z h1 h2
    have hc := clickPosition_bounds dir p
    exact ih (clickPosition dir p) _ hc.1 hc.2

theorem rotate_one_pos_bounds (s : SafeDialKnob) (c : RotationCommand) :
    -100 < (s.rotate_knob_solution_one c).current_position
    ∧ (s.rotate_knob_solution_one c).current_position < 100 := by
  obtain ⟨dir, dist⟩ := c
  cases dir with
  | Left => exact normalize_bounds (s.current_position - dist)
  | Right => exact normalize_bounds (s.current_position + dist)

theorem rotate_two_pos_bounds (s : SafeDialKnob) (c : RotationCommand)
    (h1 : -100 < s.current_position) (h2 : s.current_position < 100) :
    -100 < (s.rotate_knob_solution_two c).current_position
    ∧ (s.rotate_knob_solution_two c).current_position < 100 :=
  clicksLoop_fst_bounds c.direction c.distance.toNat s.current_position
    s.zero_position_occurrence h1 h2

theorem apply_one_pos_bounds :
    ∀ (cmds : List RotationCommand) (s : SafeDialKnob),
      -100 < s.current_position → s.current_position < 100 →
      -100 < (s.apply_rotation_commands_solution_one cmds).current_position
      ∧ (s.apply_rotation_commands_solution_one cmds).current_position < 100 := by
  intro cmds
  induction cmds with
  | nil => intro s h1 h2; exact ⟨h1, h2⟩
  | cons c cs ih =>
    intro s h1 h2
    have hstep : s.apply_rotation_commands_solution_one (c :: cs) =
        (s.rotate_knob_solution_one c).apply_rotation_commands_solution_one cs := rfl
    rw [hstep]
    have hb := rotate_one_pos_bounds s c
    exact ih _ hb.1 hb.2

theorem apply_two_pos_bounds :
    ∀ (cmds : List RotationCommand) (s : SafeDialKnob),
      -100 < s.current_position → s.current_position < 100 →
      -100 < (s.apply_rotation_commands_solution_two cmds).current_position
      ∧ (s.apply_rotation_commands_solution_two cmds).current_position < 100 := by
  intro cmds
  induction cmds with
  | nil => intro s h1 h2; exact ⟨h1, h2⟩
  | cons c cs ih =>
    intro s h1 h2
    have hstep : s.apply_rotation_commands_solution_two (c :: cs) =
        (s.rotate_knob_solution_two c).apply_rotation_commands_solution_two cs := rfl
    rw [hstep]
    have hb := rotate_two_pos_bounds s c h1 h2
    exact ih _ hb.1 hb.2

theorem loopIter_steps (dir : Direction) :
    ∀ (k : Nat) (st : LoopState), (loopIter dir k st).steps = st.steps - k := by
  intro k
  induction k with
  | zero => intro st; simp only [loopIter, Nat.cast_zero, Int.sub_zero]
  | succ k ih =>
    intro st
    have hstep : loopIter dir (k + 1) st = loopIter dir k (loopBody dir st) := rfl
    rw [hstep, ih (loopBody dir st)]
    have hbody : (loopBody dir st).steps = st.steps - 1 := rfl
    rw [hbody]
    push_cast
    omega

theorem loopIter_run (dir : Direction) :
    ∀ (k : Nat) (c s : Int) (z : Nat),
      (loopIter dir k ⟨c, s, z⟩).current = (clicksLoop dir k c z).1
      ∧ (loopIter dir k ⟨c, s, z⟩).zeros = (clicksLoop dir k c z).2 := by
  intro k
  induction k with
  | zero => intro c s z; exact ⟨rfl, rfl⟩
  | succ k ih =>
    intro c s z
    have hstep : loopIter dir (k + 1) ⟨c, s, z⟩ =
        loopIter dir k ⟨clickPosition dir c, s - 1,
          if clickPosition dir c = 0 then z + 1 else z⟩ := rfl
    have hcl : ∀ r : Int × Nat,
        r = clicksLoop dir k (clickPosition dir c)
          (if clickPosition dir c = 0 then z + 1 else z) →
        clicksLoop dir (k + 1) c z = r := fun r hr => hr ▸ rfl
    rw [hstep]
    rw [hcl _ rfl]
    exact ih (clickPosition dir c) (s - 1) (if clickPosition dir c = 0 then z + 1 else z)

/-! ### Claim theorems -/

/-- C1 counterexample: the position-update step of both policies is not
mathematical modulo. The Rust remainder maps -1 to -1, not 99, and the
Policy A update from position 0 with command L1 leaves the dial at
position -1, outside [0, 99]. -/
theorem C1_counterexample :
    normalize (-1) = -1 ∧ normalize (-1) ≠ 99
    ∧ (SafeDialKnob.rotate_knob_solution_one ⟨0, 0⟩ ⟨Direction.Left, 1⟩).current_position = -1 := by
  decide

/-- C1 (amended): the position-update (normalization) step used by both
policies is the Rust truncating remainder by 100: for every integer x the
normalized value lies strictly between -100 and 100 and is congruent to x
modulo 100, but a negative input keeps its sign (normalize (-1) = -1, not
99); the zero test nevertheless agrees with mathematical modulo, and the
per-click updates of Policy B are exactly this normalization of a one-step
move. -/
theorem C1_normalize_truncating (x : Int) :
    (-100 < normalize x ∧ normalize x < 100)
    ∧ normalize x % 100 = x % 100
    ∧ (normalize x = 0 ↔ x % 100 = 0)
    ∧ normalize (-1) = -1
    ∧ (∀ p : Int, clickPosition Direction.Right p = normalize (p + 1)
        ∧ clickPosition Direction.Left p = normalize (p - 1)) := by
  refine ⟨normalize_bounds x, ?_, ?_, by decide, fun p => ⟨rfl, rfl⟩⟩
  · rw [normalize_def]; split <;> omega
  · rw [normalize_def]; split <;> omega

/-- C2 counterexample: from the initial state, the single command L68
leaves the position field at -18, outside [0, 99]. -/
theorem C2_counterexample :
    (SafeDialKnob.init.apply_rotation_commands_solution_one
      [⟨Direction.Left, 68⟩]).current_position = -18
    ∧ (SafeDialKnob.init.apply_rotation_commands_solution_one
      [⟨Direction.Left, 68⟩]).current_position < 0
    ∧ (SafeDialKnob.init.apply_rotation_commands_solution_two
      [⟨Direction.Left, 68⟩]).current_position = -18 := by
  decide

/-- C2 (amended): for every command sequence applied to the simulator
initialized at 50, the position field stays strictly between -100 and 100
(not in [0, 99]) after every state-changing operation: after every prefix
of commands under either policy, and after every single unit click of
Policy B. -/
theorem C2_position_range (cmds : List RotationCommand) (n : Nat) :
    (-100 < (SafeDialKnob.init.apply_rotation_commands_solution_one
        (cmds.take n)).current_position
      ∧ (SafeDialKnob.init.apply_rotation_commands_solution_one
        (cmds.take n)).current_position < 100)
    ∧ (-100 < (SafeDialKnob.init.apply_rotation_commands_solution_two
        (cmds.take n)).current_position
      ∧ (SafeDialKnob.init.apply_rotation_commands_solution_two
        (cmds.take n)).current_position < 100)
    ∧ (∀ (dir : Direction) (p : Int),
        -100 < clickPosition dir p ∧ clickPosition dir p < 100) :=
  ⟨apply_one_pos_bounds (cmds.take n) SafeDialKnob.init (by decide) (by decide),
   apply_two_pos_bounds (cmds.take n) SafeDialKnob.init (by decide) (by decide),
   clickPosition_bounds⟩

/-- C4: on the worked example sequence starting at position 50, Policy A
counts 3 zeros and Policy B counts 6 zeros. -/
theorem C4_example_counts :
    (SafeDialKnob.init.apply_rotation_commands_solution_one
      exampleCommands).get_code_sequence = 3
    ∧ (SafeDialKnob.init.apply_rotation_commands_solution_two
      exampleCommands).get_code_sequence = 6 := by
  constructor
  · decide
  · have h1 : SafeDialKnob.rotate_knob_solution_two ⟨50, 0⟩ ⟨Direction.Left, 68⟩
      = ⟨-18, 1⟩ := by decide
    have h2 : SafeDialKnob.rotate_knob_solution_two ⟨-18, 1⟩ ⟨Direction.Left, 30⟩
      = ⟨-48, 1⟩ := by decide
    have h3 : SafeDialKnob.rotate_knob_solution_two ⟨-48, 1⟩ ⟨Direction.Right, 48⟩
      = ⟨0, 2⟩ := by decide
    have h4 : SafeDialKnob.rotate_knob_solution_two ⟨0, 2⟩ ⟨Direction.Left, 5⟩
      = ⟨-5, 2⟩ := by decide
    have h5 : SafeDialKnob.rotate_knob_solution_two ⟨-5, 2⟩ ⟨Direction.Right, 60⟩
      = ⟨55, 3⟩ := by decide
    have h6 : SafeDialKnob.rotate_knob_solution_two ⟨55, 3⟩ ⟨Direction.Left, 55⟩
      = ⟨0, 4⟩ := by decide
    have h7 : SafeDialKnob.rotate_knob_solution_two ⟨0, 4⟩ ⟨Direction.Left, 1⟩
      = ⟨-1, 4⟩ := by decide
    have h8 : SafeDialKnob.rotate_knob_solution_two ⟨-1, 4⟩ ⟨Direction.Left, 99⟩
      = ⟨0, 5⟩ := by decide
    have h9 : SafeDialKnob.rotate_knob_solution_two ⟨0, 5⟩ ⟨Direction.Right, 14⟩
      = ⟨14, 5⟩ := by decide
    have h10 : SafeDialKnob.rotate_knob_solution_two ⟨14, 5⟩ ⟨Direction.Left, 82⟩
      = ⟨-68, 6⟩ := by decide
    simp only [SafeDialKnob.apply_rotation_commands_solution_two, exampleCommands,
      SafeDialKnob.init, SafeDialKnob.get_code_sequence, List.foldl_cons, List.foldl_nil,
      h1, h2, h3, h4, h5, h6, h7, h8, h9, h10]

/-- C6: starting at position 50, the single command R1000 yields 10 zeros
under Policy B (a right rotation of magnitude 1000 started at any dial
position 0 to 99 passes through zero exactly 10 times) and 0 zeros under
Policy A, because 1050 mod 100 = 50 is not zero. -/
theorem C6_r1000_counts :
    (SafeDialKnob.init.apply_rotation_commands_solution_two
      [⟨Direction.Right, 1000⟩]).get_code_sequence = 10
    ∧ (SafeDialKnob.init.apply_rotation_commands_solution_one
      [⟨Direction.Right, 1000⟩]).get_code_sequence = 0
    ∧ (∀ p : Fin 100, (clicksLoop Direction.Right 1000 ((p : Nat) : Int) 0).2 = 10) := by
  refine ⟨?_, by decide, ?_⟩
  · have h100 : clicksLoop Direction.Right 100 50 0 = (50, 1) := by decide
    have h1000 : clicksLoop Direction.Right 1000 50 0 = (50, 10) := by
      have h := clicksLoop_cycle Direction.Right 100 50 1 h100 10
      norm_num at h
      exact h
    have hrot : SafeDialKnob.rotate_knob_solution_two SafeDialKnob.init ⟨Direction.Right, 1000⟩
        = ⟨(clicksLoop Direction.Right ((1000 : Int).toNat) 50 0).1,
           (clicksLoop Direction.Right ((1000 : Int).toNat) 50 0).2⟩ := rfl
    have htn : ((1000 : Int).toNat) = 1000 := rfl
    rw [htn, h1000] at hrot
    have happ : SafeDialKnob.init.apply_rotation_commands_solution_two
        [⟨Direction.Right, 1000⟩]
        = SafeDialKnob.rotate_knob_solution_two SafeDialKnob.init ⟨Direction.Right, 1000⟩ := rfl
    rw [happ, hrot]
    rfl
  · have hbase : ∀ p : Fin 100,
        clicksLoop Direction.Right 100 ((p : Nat) : Int) 0 = (((p : Nat) : Int), 1) := by
      decide
    intro p
    have h := clicksLoop_cycle Direction.Right 100 ((p : Nat) : Int) 1 (hbase p) 10
    norm_num at h
    rw [h]

/-- C7: the Policy A simulators of the two programs coincide: from every
starting state and for every command sequence, execute_rotation_commands
of src/task_1_safe_puzzle produces exactly the same state, hence the same
final position and zero count, as apply_rotation_commands_solution_one of
src/day_1_safe_puzzle. -/
theorem C7_programs_equivalent (knob : SafeDialKnob) (commands : List RotationCommand) :
    Task1.execute_rotation_commands knob commands =
      knob.apply_rotation_commands_solution_one commands
    ∧ (Task1.execute_rotation_commands knob commands).current_position =
      (knob.apply_rotation_commands_solution_one commands).current_position
    ∧ (Task1.execute_rotation_commands knob commands).get_code_sequence =
      (knob.apply_rotation_commands_solution_one commands).get_code_sequence := by
  have h : Task1.execute_rotation_commands knob commands =
      knob.apply_rotation_commands_solution_one commands := rfl
  exact ⟨h, by rw [h], by rw [h]⟩

/-- Reduction of parse when the trimmed input is empty. -/
theorem parse_nil_eq (raw : List Char) (h : trimChars raw = []) :
    RotationCommand.parse raw = Except.error RotationCommandParseError.EmptyInput := by
  unfold RotationCommand.parse
  rw [h]

/-- Reduction of parse once the trimmed input is known to start with a
direction character. -/
theorem parse_cons (raw : List Char) (dirCh : Char) (rest : List Char)
    (h : trimChars raw = dirCh :: rest) :
    RotationCommand.parse raw =
      match Direction.tryFromChar dirCh with
      | Except.error e =>
          Except.error (RotationCommandParseError.InvalidDirection (dirCh :: rest) dirCh e)
      | Except.ok direction =>
          if rest = [] then
            Except.error (RotationCommandParseError.MissingDistance (dirCh :: rest))
          else
            match parseI32 rest with
            | Except.error e =>
                Except.error (RotationCommandParseError.InvalidDistance (dirCh :: rest) rest e)
            | Except.ok distance => Except.ok ⟨direction, distance⟩ := by
  unfold RotationCommand.parse
  rw [h]

/-- C5 counterexample: with a zero-distance command the claimed inequality
fails. Starting from the initial state, the sequence R50 then R0 gives
Policy A two zeros (R0 re-lands on 0 and is counted again) but Policy B
only one (a zero-distance rotation performs no click), so Policy A is not
below Policy B. -/
theorem C5_counterexample :
    (SafeDialKnob.init.apply_rotation_commands_solution_one
      [⟨Direction.Right, 50⟩, ⟨Direction.Right, 0⟩]).get_code_sequence = 2
    ∧ (SafeDialKnob.init.apply_rotation_commands_solution_two
      [⟨Direction.Right, 50⟩, ⟨Direction.Right, 0⟩]).get_code_sequence = 1
    ∧ ¬((SafeDialKnob.init.apply_rotation_commands_solution_one
        [⟨Direction.Right, 50⟩, ⟨Direction.Right, 0⟩]).get_code_sequence ≤
      (SafeDialKnob.init.apply_rotation_commands_solution_two
        [⟨Direction.Right, 50⟩, ⟨Direction.Right, 0⟩]).get_code_sequence) := by
  decide

/-- C5 (amended): for every command sequence whose distances are all at
least 1, applied from the initial state, the final Policy A zero count is
at most the final Policy B zero count; with a zero-distance command the
end-of-rotation zero has no corresponding click and the inequality can
fail. -/
theorem C5_policy_mono (cmds : List RotationCommand) (h : ∀ c ∈ cmds, 1 ≤ c.distance) :
    (SafeDialKnob.init.apply_rotation_commands_solution_one cmds).get_code_sequence ≤
      (SafeDialKnob.init.apply_rotation_commands_solution_two cmds).get_code_sequence :=
  (policies_rel cmds 50 0 0 h (by omega) (by omega) (Nat.le_refl 0)).2.2.2

/-- C5 witness: the amended inequality instantiated on the worked example
sequence, whose distances are all positive. -/
theorem C5_witness :
    (SafeDialKnob.init.apply_rotation_commands_solution_one
      exampleCommands).get_code_sequence ≤
    (SafeDialKnob.init.apply_rotation_commands_solution_two
      exampleCommands).get_code_sequence :=
  C5_policy_mono exampleCommands (by decide)

/-- C10: the while loop of rotate_knob_solution_two terminates exactly when
the distance is non-negative. From any loop state with non-negative steps,
the guard steps. The guard value is zero after exactly steps iterations and
nonzero at every earlier point; with negative steps the guard never becomes
zero, so distance at least 0 is a required precondition for totality; and
for a non-negative distance the embedded rotate_knob_solution_two is
exactly the loop run for distance iterations. -/
theorem C10_loop_termination (dir : Direction) (st : LoopState) :
    (0 ≤ st.steps →
      ((loopIter dir st.steps.toNat st).steps = 0
        ∧ ∀ k : Nat, k < st.steps.toNat → (loopIter dir k st).steps ≠ 0))
    ∧ (st.steps < 0 → ∀ k : Nat, (loopIter dir k st).steps ≠ 0)
    ∧ (∀ (knob : SafeDialKnob) (cmd : RotationCommand), 0 ≤ cmd.distance →
        knob.rotate_knob_solution_two cmd =
          ⟨(loopIter cmd.direction cmd.distance.toNat
              ⟨knob.current_position, cmd.distance, knob.zero_position_occurrence⟩).current,
            (loopIter cmd.direction cmd.distance.toNat
              ⟨knob.current_position, cmd.distance, knob.zero_position_occurrence⟩).zeros⟩) := by
  refine ⟨?_, ?_, ?_⟩
  · intro h
    constructor
    · rw [loopIter_steps]; omega
    · intro k hk
      rw [loopIter_steps]; omega
  · intro h k
    rw [loopIter_steps]; omega
  · intro knob cmd hd
    have hrun := loopIter_run cmd.direction cmd.distance.toNat
      knob.current_position cmd.distance knob.zero_position_occurrence
    have hrot : knob.rotate_knob_solution_two cmd =
        ⟨(clicksLoop cmd.direction cmd.distance.toNat
            knob.current_position knob.zero_position_occurrence).1,
          (clicksLoop cmd.direction cmd.distance.toNat
            knob.current_position knob.zero_position_occurrence).2⟩ := rfl
    rw [hrot, hrun.1, hrun.2]

/-- C10 witness: the termination statement instantiated at direction Right
and loop state with position 50, 3 remaining steps and counter 0, together
with the correspondence to rotate_knob_solution_two on the command R3. -/
theorem C10_witness :
    (loopIter Direction.Right ((3 : Int)).toNat ⟨50, 3, 0⟩).steps = 0
    ∧ SafeDialKnob.rotate_knob_solution_two ⟨50, 0⟩ ⟨Direction.Right, 3⟩ =
      ⟨(loopIter Direction.Right ((3 : Int)).toNat ⟨50, 3, 0⟩).current,
       (loopIter Direction.Right ((3 : Int)).toNat ⟨50, 3, 0⟩).zeros⟩ := by
  have h := C10_loop_termination Direction.Right ⟨50, 3, 0⟩
  exact ⟨(h.1 (by decide)).1, h.2.2 ⟨50, 0⟩ ⟨Direction.Right, 3⟩ (by decide)⟩

/-- C9: after trimming, parse reports the first failing step: EmptyInput on
an empty trimmed line, InvalidDirection wrapping Unsupported c when the
first character c is neither L nor R, and MissingDistance when a valid
direction character is followed by nothing. -/
theorem C9_error_steps :
    (∀ raw : List Char, trimChars raw = [] →
      RotationCommand.parse raw = Except.error RotationCommandParseError.EmptyInput)
    ∧ (∀ (raw : List Char) (c : Char) (rest : List Char), trimChars raw = c :: rest →
        c ≠ 'L' → c ≠ 'R' →
        RotationCommand.parse raw = Except.error
          (RotationCommandParseError.InvalidDirection (c :: rest) c
            (DirectionParseError.Unsupported c)))
    ∧ (∀ (raw : List Char) (c : Char), trimChars raw = [c] → (c = 'L' ∨ c = 'R') →
        RotationCommand.parse raw =
          Except.error (RotationCommandParseError.MissingDistance [c])) := by
  refine ⟨?_, ?_, ?_⟩
  · intro raw h
    unfold RotationCommand.parse
    rw [h]
  · intro raw c rest h hL hR
    have hdir : Direction.tryFromChar c =
        Except.error (DirectionParseError.Unsupported c) := by
      unfold Direction.tryFromChar
      rw [if_neg hR, if_neg hL]
    rw [parse_cons raw c rest h, hdir]
  · intro raw c h hc
    rcases hc with hc | hc <;> (subst hc; rw [parse_cons raw _ [] h]; rfl)

/-- C9 witness: the three error steps on the concrete inputs of the spec:
the empty line and a whitespace-only line give EmptyInput, X99 gives
InvalidDirection wrapping Unsupported X, and a bare R gives
MissingDistance. -/
theorem C9_witness :
    RotationCommand.parse [] = Except.error RotationCommandParseError.EmptyInput
    ∧ RotationCommand.parse [' ', ' ', ' '] =
        Except.error RotationCommandParseError.EmptyInput
    ∧ RotationCommand.parse ['X', '9', '9'] = Except.error
        (RotationCommandParseError.InvalidDirection ['X', '9', '9'] 'X'
          (DirectionParseError.Unsupported 'X'))
    ∧ RotationCommand.parse ['R'] =
        Except.error (RotationCommandParseError.MissingDistance ['R']) := by
  have h := C9_error_steps
  exact ⟨h.1 [] (by decide), h.1 [' ', ' ', ' '] (by decide),
    h.2.1 ['X', '9', '9'] 'X' ['9', '9'] (by decide) (by decide) (by decide),
    h.2.2 ['R'] 'R' (by decide) (Or.inr rfl)⟩

/-- Reduction of parse past a successfully parsed direction with a
nonempty distance substring. -/
theorem parse_cons_ok (raw : List Char) (dirCh : Char) (rest : List Char) (dv : Direction)
    (h : trimChars raw = dirCh :: rest) (hdir : Direction.tryFromChar dirCh = Except.ok dv)
    (hrest : rest ≠ []) :
    RotationCommand.parse raw =
      match parseI32 rest with
      | Except.error e =>
          Except.error (RotationCommandParseError.InvalidDistance (dirCh :: rest) rest e)
      | Except.ok distance => Except.ok ⟨dv, distance⟩ := by
  rw [parse_cons raw dirCh rest h, hdir]
  exact if_neg hrest

/-- Successful parse at the leaf of the error cascade. -/
theorem parse_ok_eq (raw : List Char) (dirCh : Char) (rest : List Char) (dv : Direction)
    (v : Int) (h : trimChars raw = dirCh :: rest)
    (hdir : Direction.tryFromChar dirCh = Except.ok dv) (hrest : rest ≠ [])
    (hp : parseI32 rest = Except.ok v) :
    RotationCommand.parse raw = Except.ok ⟨dv, v⟩ := by
  rw [parse_cons_ok raw dirCh rest dv h hdir hrest, hp]

/-- Failing distance parse surfaces as InvalidDistance. -/
theorem parse_dist_error_eq (raw : List Char) (dirCh : Char) (rest : List Char)
    (dv : Direction) (e : IntParseError) (h : trimChars raw = dirCh :: rest)
    (hdir : Direction.tryFromChar dirCh = Except.ok dv) (hrest : rest ≠ [])
    (hp : parseI32 rest = Except.error e) :
    RotationCommand.parse raw =
      Except.error (RotationCommandParseError.InvalidDistance (dirCh :: rest) rest e) := by
  rw [parse_cons_ok raw dirCh rest dv h hdir hrest, hp]

/-- Failing direction parse surfaces as InvalidDirection. -/
theorem parse_dir_error_eq (raw : List Char) (dirCh : Char) (rest : List Char)
    (e : DirectionParseError) (h : trimChars raw = dirCh :: rest)
    (hdir : Direction.tryFromChar dirCh = Except.error e) :
    RotationCommand.parse raw =
      Except.error (RotationCommandParseError.InvalidDirection (dirCh :: rest) dirCh e) := by
  rw [parse_cons raw dirCh rest h, hdir]

/-- Valid direction with nothing after it surfaces as MissingDistance. -/
theorem parse_missing_eq (raw : List Char) (dirCh : Char) (dv : Direction)
    (h : trimChars raw = [dirCh]) (hdir : Direction.tryFromChar dirCh = Except.ok dv) :
    RotationCommand.parse raw =
      Except.error (RotationCommandParseError.MissingDistance [dirCh]) := by
  rw [parse_cons raw dirCh [] h, hdir]
  rfl

/-- C3 counterexample: parse accepts a signed distance. The line R-5 parses
successfully to a command whose distance is the negative integer -5, so it
is not the case that every successfully parsed RotationCommand has a
non-negative distance, and InvalidDistance is not raised for every
substring that fails to be a non-negative integer literal. -/
theorem C3_counterexample :
    RotationCommand.parse ['R', '-', '5'] = Except.ok ⟨Direction.Right, -5⟩
    ∧ (-5 : Int) < 0 := by
  decide

/-- C3 (amended): after a valid direction character and a nonempty distance
substring, parse fails with InvalidDistance exactly when the substring is
not a valid signed 32-bit integer literal (a non-digit appears, or the
value overflows the i32 range); in particular parse of Rabc fails with
InvalidDistance. A successfully parsed command has its distance in the i32
range, but it can be negative, as the sign character is accepted. -/
theorem C3_invalid_distance :
    (∀ (raw : List Char) (dirCh : Char) (rest : List Char),
        trimChars raw = dirCh :: rest → (dirCh = 'L' ∨ dirCh = 'R') → rest ≠ [] →
        ((∃ e, RotationCommand.parse raw =
            Except.error (RotationCommandParseError.InvalidDistance (dirCh :: rest) rest e))
          ↔ ∀ v : Int, parseI32 rest ≠ Except.ok v))
    ∧ (∀ (raw : List Char) (cmd : RotationCommand),
        RotationCommand.parse raw = Except.ok cmd →
          i32Min ≤ cmd.distance ∧ cmd.distance ≤ i32Max)
    ∧ RotationCommand.parse ['R', 'a', 'b', 'c'] =
        Except.error (RotationCommandParseError.InvalidDistance ['R', 'a', 'b', 'c']
          ['a', 'b', 'c'] IntParseError.InvalidDigit) := by
  refine ⟨?_, ?_, by decide⟩
  · intro raw dirCh rest htrim hdir hrest
    have hdv : ∃ dv, Direction.tryFromChar dirCh = Except.ok dv := by
      rcases hdir with h | h <;> subst h
      · exact ⟨Direction.Left, rfl⟩
      · exact ⟨Direction.Right, rfl⟩
    obtain ⟨dv, hdv⟩ := hdv
    cases hp : parseI32 rest with
    | error e =>
      constructor
      · intro _ v hv
        exact Except.noConfusion hv
      · intro _
        exact ⟨e, parse_dist_error_eq raw dirCh rest dv e htrim hdv hrest hp⟩
    | ok v =>
      constructor
      · rintro ⟨e, he⟩
        rw [parse_ok_eq raw dirCh rest dv v htrim hdv hrest hp] at he
        exact Except.noConfusion he
      · intro hall
        exact absurd rfl (hall v)
  · intro raw cmd hok
    cases htr : trimChars raw with
    | nil =>
      rw [parse_nil_eq raw htr] at hok
      exact Except.noConfusion hok
    | cons dirCh rest =>
      cases hd : Direction.tryFromChar dirCh with
      | error e =>
        rw [parse_dir_error_eq raw dirCh rest e htr hd] at hok
        exact Except.noConfusion hok
      | ok dv =>
        by_cases hrest : rest = []
        · subst hrest
          rw [parse_missing_eq raw dirCh dv htr hd] at hok
          exact Except.noConfusion hok
        · cases hp : parseI32 rest with
          | error e =>
            rw [parse_dist_error_eq raw dirCh rest dv e htr hd hrest hp] at hok
            exact Except.noConfusion hok
          | ok v =>
            rw [parse_ok_eq raw dirCh rest dv v htr hd hrest hp] at hok
            have hcmd : cmd = ⟨dv, v⟩ := (Except.ok.injEq _ _ ▸ hok).symm
            rw [hcmd]
            exact parseI32_ok_bounds rest v hp

/-- C3 witness: the InvalidDistance criterion applied to the concrete line
Rabc, and the distance bound applied to the concrete parse of R-5. -/
theorem C3_witness :
    (∃ e, RotationCommand.parse ['R', 'a', 'b', 'c'] =
      Except.error (RotationCommandParseError.InvalidDistance ['R', 'a', 'b', 'c']
        ['a', 'b', 'c'] e))
    ∧ (i32Min ≤ (-5 : Int) ∧ (-5 : Int) ≤ i32Max) := by
  have h := C3_invalid_distance
  constructor
  · refine (h.1 ['R', 'a', 'b', 'c'] 'R' ['a', 'b', 'c'] (by decide)
      (Or.inr rfl) (by decide)).mpr ?_
    intro v hv
    rw [show parseI32 ['a', 'b', 'c'] = Except.error IntParseError.InvalidDigit
      from by decide] at hv
    exact Except.noConfusion hv
  · exact h.2.1 ['R', '-', '5'] ⟨Direction.Right, -5⟩ (by decide)

/-- C8 counterexample: the round trip fails for integer literals that
overflow the i32 width. The line R2147483648, whose distance literal
2147483648 = 2^31 is non-negative and has no leading zeros, does not
parse: it fails with InvalidDistance (positive overflow). -/
theorem C8_counterexample :
    RotationCommand.parse
        ['R', '2', '1', '4', '7', '4', '8', '3', '6', '4', '8'] =
      Except.error (RotationCommandParseError.InvalidDistance
        ['R', '2', '1', '4', '7', '4', '8', '3', '6', '4', '8']
        ['2', '1', '4', '7', '4', '8', '3', '6', '4', '8'] IntParseError.PosOverflow) := by
  decide

/-- C8 (amended): for every direction D and every natural number n up to
the i32 maximum 2147483647, the line formed by the direction literal
followed by the canonical decimal rendering of n (which has no leading
zeros) parses successfully to the command with direction D and distance n,
and rendering that command reproduces the line exactly. Above the i32
maximum the parse instead fails with InvalidDistance. -/
theorem C8_round_trip (dir : Direction) (n : Nat) (h : n ≤ 2147483647) :
    RotationCommand.parse (dir.get_direction_literal ++ natRepr n) =
      Except.ok ⟨dir, (n : Int)⟩
    ∧ RotationCommand.render ⟨dir, (n : Int)⟩ = dir.get_direction_literal ++ natRepr n := by
  have hn : (n : Int) ≤ i32Max := by unfold i32Max; omega
  have hrender : RotationCommand.render ⟨dir, (n : Int)⟩ =
      dir.get_direction_literal ++ natRepr n := by
    unfold RotationCommand.render intRepr
    rw [if_neg (by omega : ¬((n : Int) < 0)), Int.toNat_ofNat]
  refine ⟨?_, hrender⟩
  have hws : ∀ c ∈ dir.get_direction_literal ++ natRepr n, c.isWhitespace = false := by
    intro c hc
    rcases List.mem_append.mp hc with hmem | hmem
    · cases dir with
      | Left =>
        rw [List.mem_singleton.mp hmem]
        decide
      | Right =>
        rw [List.mem_singleton.mp hmem]
        decide
    · exact isDigit_not_ws (natRepr_digits n c hmem)
  have htrim := trimChars_eq_self hws
  cases dir with
  | Left =>
    have htrim2 : trimChars (Direction.Left.get_direction_literal ++ natRepr n) =
        'L' :: natRepr n := htrim
    exact parse_ok_eq _ 'L' (natRepr n) Direction.Left (n : Int) htrim2 rfl
      (natRepr_ne_nil n) (parseI32_natRepr n hn)
  | Right =>
    have htrim2 : trimChars (Direction.Right.get_direction_literal ++ natRepr n) =
        'R' :: natRepr n := htrim
    exact parse_ok_eq _ 'R' (natRepr n) Direction.Right (n : Int) htrim2 rfl
      (natRepr_ne_nil n) (parseI32_natRepr n hn)

/-- C8 witness: the round trip instantiated at the concrete line R12. -/
theorem C8_witness :
    RotationCommand.parse ['R', '1', '2'] = Except.ok ⟨Direction.Right, 12⟩
    ∧ RotationCommand.render ⟨Direction.Right, 12⟩ = ['R', '1', '2'] := by
  have h := C8_round_trip Direction.Right 12 (by omega)
  have he : Direction.Right.get_direction_literal ++ natRepr 12 = ['R', '1', '2'] := by decide
  rw [he] at h
  exact h

end AoC2025
